import Mathlib

/-!
Verification of the rcpio cpio-archive codec (NEWC/CRC formats).

This file is a shallow embedding of the relevant parts of `src/lib.rs` and
`src/defs.rs`.  Byte buffers are `List Nat` (each element a `u8` value),
machine integers are `Nat` with explicit `% 2 ^ 32` where Rust truncates,
and fallible Rust functions returning `Result<_, Error>` become Lean
functions returning `Except Err _`.  The payload strings of the Rust error
variants are dropped: no property below depends on an error message, only
on the variant.
-/

deriving instance DecidableEq for Except

namespace Rcpio

/-- A byte: the value of a Rust `u8`. -/
abbrev Byte := Nat

/-- The bytes of an ASCII string literal (used for the magic and trailer
constants of `src/defs.rs`, which Rust writes as byte-string literals). -/
def strBytes (s : String) : List Byte := s.data.map Char.toNat

/-- Error variants of `rcpio::Error` (src/lib.rs lines 16-44), without their
message payloads. -/
inductive Err
  | cpioLoadError
  | earlyEOFError
  | invalidArchiveError
  | entryConversionError
  | fileModeError
  | fileSystemError
  | gzEncoderError
  | noSuchFile
  | stringEncodingError
deriving DecidableEq

/-- `CpioFormat` (src/lib.rs lines 46-50). -/
inductive CpioFormat
  | newc
  | crc
deriving DecidableEq

/-- `defs::NEWC_MAGIC` (src/defs.rs line 1). -/
def NEWC_MAGIC : List Byte := strBytes "070701"

/-- `defs::CRC_MAGIC` (src/defs.rs line 2). -/
def CRC_MAGIC : List Byte := strBytes "070702"

/-- `defs::TRAILER` (src/defs.rs line 4): 104 header-field characters
followed by the name `TRAILER!!!` and its terminating null byte. -/
def TRAILER : List Byte :=
  strBytes "00000000000000000000000000000000000000010000000000000000000000000000000000000000000000000000000B00000000TRAILER!!!" ++ [0]

/-- `defs::CPIO_MAGIC_LEN` (src/defs.rs line 6). -/
def CPIO_MAGIC_LEN : Nat := 6

/-- `defs::CPIO_FIELD_LEN` (src/defs.rs line 7). -/
def CPIO_FIELD_LEN : Nat := 8

/-- `defs::CPIO_HEADER_LEN` (src/defs.rs line 10). -/
def CPIO_HEADER_LEN : Nat := 110

/-- The magic bytes selected for a format (the `match format` at
src/lib.rs lines 136-143 and 287-290). -/
def magicBytes : CpioFormat → List Byte
  | .newc => NEWC_MAGIC
  | .crc => CRC_MAGIC

/-- ASCII code of the digit `n < 16` in uppercase hexadecimal.  Rust formats
each header field with `format!("{:08x}", v)` and then uppercases the whole
string (src/lib.rs lines 145-161); the net effect per digit is this map. -/
def hexDigitChar (n : Nat) : Byte := if n < 10 then 48 + n else 55 + n

/-- The 8-character uppercase hexadecimal rendering of a `u32` value, as
produced by `format!("{:08x}", v)` + `to_uppercase` for `v < 2 ^ 32`. -/
def hexUpper8 (v : Nat) : List Byte :=
  (List.range 8).map (fun i => hexDigitChar (v / 16 ^ (7 - i) % 16))

/-- `CpioBuilderEntry` (src/lib.rs lines 116-130): the 13 `u32` header
fields, modelled as naturals. -/
structure CpioBuilderEntry where
  c_ino       : Nat
  c_mode      : Nat
  c_uid       : Nat
  c_gid       : Nat
  c_nlink     : Nat
  c_mtime     : Nat
  c_filesize  : Nat
  c_devmajor  : Nat
  c_devminor  : Nat
  c_rdevmajor : Nat
  c_rdevminor : Nat
  c_namesize  : Nat
  c_check     : Nat
deriving DecidableEq

/-- The 13 fields in the order they are pushed by
`CpioBuilderEntry::to_bytes` (src/lib.rs lines 147-159). -/
def CpioBuilderEntry.fieldList (e : CpioBuilderEntry) : List Nat :=
  [e.c_ino, e.c_mode, e.c_uid, e.c_gid, e.c_nlink, e.c_mtime, e.c_filesize,
   e.c_devmajor, e.c_devminor, e.c_rdevmajor, e.c_rdevminor, e.c_namesize,
   e.c_check]

/-- `CpioBuilderEntry::to_bytes` (src/lib.rs lines 133-163): the magic for
the chosen format followed by the 13 fields, each rendered as 8 uppercase
hex characters. -/
def CpioBuilderEntry.to_bytes (e : CpioBuilderEntry) (format : CpioFormat) : List Byte :=
  magicBytes format ++ (e.fieldList.map hexUpper8).flatten

/-- `major` (src/lib.rs lines 166-168): major is bits 8-19 of the raw
device number. -/
def major (dev : Nat) : Nat := (dev >>> 8) &&& 0xfff

/-- `minor` (src/lib.rs lines 170-172): minor is bits 0-7 and 20-31 of the
raw device number. -/
def minor (dev : Nat) : Nat := (dev &&& 0xff) ||| ((dev >>> 12) &&& 0xfff00)

/-- Modelled from the spec: the repository has no recomposition function,
so this follows the spec's words for reassembling a device number from the
decomposed pair: "major shifted to bits 8-19, minor low byte to bits 0-7,
minor bits 8-19 to bits 20-31". -/
def recomposeDev (ma mi : Nat) : Nat :=
  (ma <<< 8) ||| (mi &&& 0xff) ||| (((mi >>> 8) &&& 0xfff) <<< 20)

/-- `trailer_bytes` (src/lib.rs lines 285-296). -/
def trailer_bytes (format : CpioFormat) : List Byte :=
  magicBytes format ++ TRAILER

/-- The slice `&mem[a..b]` of a byte buffer.  At every use site below the
Rust code has already established `a ≤ b ≤ mem.len()`, so the truncating
behaviour of `take`/`drop` never differs from Rust's panicking slice. -/
def slice (mem : List Byte) (a b : Nat) : List Byte := (mem.take b).drop a

/-- The filesystem metadata consumed by `entry_bytes` (src/lib.rs lines
186-260).  The filesystem itself is external to the codec, so the metadata
of the archived object is an input of the model; each field is the `u32`
view the Rust code takes of it (`st_ino as u32` etc.). -/
structure FileMeta where
  st_ino   : Nat
  st_mode  : Nat
  st_uid   : Nat
  st_gid   : Nat
  st_nlink : Nat
  st_mtime : Nat
  st_dev   : Nat
  st_rdev  : Nat
  is_symlink : Bool
deriving DecidableEq

/-- The checksum computed by `entry_bytes` (src/lib.rs lines 228-242):
zero for NEWC; zero for a symlink even under CRC; otherwise the wrapping
`u32` sum of the content bytes. -/
def cpioChecksum (format : CpioFormat) (is_symlink : Bool) (content : List Byte) : Nat :=
  match format with
  | .newc => 0
  | .crc =>
    if is_symlink then 0
    else content.foldl (fun res b => (res + b) % 2 ^ 32) 0

/-- Zero padding up to the next 4-byte boundary for an absolute position
`curr` (the two `if curr % 4 != 0` blocks of src/lib.rs lines 269-280). -/
def pad4 (curr : Nat) : List Byte :=
  if curr % 4 = 0 then [] else List.replicate (4 - curr % 4) 0

/-- `entry_bytes` (src/lib.rs lines 179-283) for an entry whose metadata
and content bytes are given.  `content` is the file bytes for a regular
file, the target path bytes for a symlink, and `[]` for a directory or the
`"."` root placeholder — exactly the cases of lines 195-226.  `curr_len` is
the number of bytes already emitted before this entry. -/
def entry_bytes (meta : FileMeta) (internal_path : List Byte) (content : List Byte)
    (curr_len : Nat) (format : CpioFormat) : List Byte :=
  let check := cpioChecksum format meta.is_symlink content
  let entry : CpioBuilderEntry :=
    { c_ino       := meta.st_ino % 2 ^ 32
      c_mode      := meta.st_mode % 2 ^ 32
      c_uid       := meta.st_uid % 2 ^ 32
      c_gid       := meta.st_gid % 2 ^ 32
      c_nlink     := meta.st_nlink % 2 ^ 32
      c_mtime     := meta.st_mtime % 2 ^ 32
      c_filesize  := content.length % 2 ^ 32
      c_devmajor  := major (meta.st_dev % 2 ^ 32)
      c_devminor  := minor (meta.st_dev % 2 ^ 32)
      c_rdevmajor := major (meta.st_rdev % 2 ^ 32)
      c_rdevminor := minor (meta.st_rdev % 2 ^ 32)
      c_namesize  := (internal_path.length + 1) % 2 ^ 32
      c_check     := check }
  let d1 := entry.to_bytes format ++ internal_path ++ [0]
  let d2 := d1 ++ pad4 (curr_len + d1.length)
  let d3 := d2 ++ content
  d3 ++ pad4 (curr_len + d3.length)

/-- The builder's per-entry input: filesystem metadata, internal path
bytes, content bytes (see `entry_bytes`). -/
abbrev BuilderInput := FileMeta × List Byte × List Byte

/-- The entry-serialization loop of `CpioBuilder::write` (src/lib.rs lines
333-335): each entry is appended with `curr_len` equal to the bytes
accumulated so far. -/
def writeEntries (format : CpioFormat) : List BuilderInput → List Byte → List Byte
  | [], out => out
  | (meta, path, content) :: rest, out =>
    writeEntries format rest (out ++ entry_bytes meta path content out.length format)

/-- The archive image produced by `CpioBuilder::write` (src/lib.rs lines
318-371): all entries, the trailer, then the final block padding guarded by
`out.len() % 200 != 0` but sized by `0x200 - (out.len() % 0x200)`.  The
same byte sequence is written to the output file or to the gzip encoder. -/
def CpioBuilder.write (entries : List BuilderInput) (format : CpioFormat) : List Byte :=
  let out := writeEntries format entries []
  let out := out ++ trailer_bytes format
  out ++ (if out.length % 200 ≠ 0 then List.replicate (0x200 - out.length % 0x200) 0 else [])

/-- Value of an ASCII hexadecimal digit byte, `none` for any other byte. -/
def hexDigitVal (b : Byte) : Option Nat :=
  if 48 ≤ b ∧ b ≤ 57 then some (b - 48)
  else if 65 ≤ b ∧ b ≤ 70 then some (b - 55)
  else if 97 ≤ b ∧ b ≤ 102 then some (b - 87)
  else none

/-- Accumulate a base-16 value over a digit list, failing on any non-digit
byte. -/
def hexDigitsVal (bs : List Byte) : Option Nat :=
  bs.foldl
    (fun acc b =>
      match acc, hexDigitVal b with
      | some v, some d => some (v * 16 + d)
      | _, _ => none)
    (some 0)

/-- The composition `from_utf8` + `u64::from_str_radix(_, 16)` applied by
every header-field accessor (e.g. src/lib.rs lines 754-762): an optional
leading `+` sign, then at least one hex digit.  A byte sequence passing
this is ASCII, hence valid UTF-8, and conversely any sequence failing
UTF-8 validation also fails the digit test, so both Rust failure points
collapse to `none` (both are reported as `EntryConversionError`).  The
fields are 8 bytes, so `u64`/`usize` overflow is impossible. -/
def from_str_radix16 (bs : List Byte) : Option Nat :=
  let ds := if bs.head? = some 43 then bs.tail else bs
  if ds.isEmpty then none else hexDigitsVal ds

/-- `CpioEntry` (src/lib.rs lines 537-550).  The Rust struct also caches
the 14 header sub-slices (`CpioEntryHeader`, lines 520-535); those slices
are pure functions of `index` and `mem`, recomputed here on demand by
`fieldBytes`, which yields the same bytes. -/
structure CpioEntry where
  index : Nat
  format : CpioFormat
  mem : List Byte
deriving DecidableEq

/-- `CpioEntry::new` (src/lib.rs lines 553-579): only the header-length
bound is checked; the field slices are recorded lazily. -/
def CpioEntry.new (index : Nat) (format : CpioFormat) (mem : List Byte) :
    Except Err CpioEntry :=
  if mem.length - index < CPIO_HEADER_LEN then .error .earlyEOFError
  else .ok ⟨index, format, mem⟩

/-- The bytes of header field number `i` (0 = inode, ..., 11 = namesize,
12 = checksum), as sliced in `CpioEntry::new` (src/lib.rs lines 561-576). -/
def CpioEntry.fieldBytes (e : CpioEntry) (i : Nat) : List Byte :=
  slice e.mem (e.index + CPIO_MAGIC_LEN + i * CPIO_FIELD_LEN)
    (e.index + CPIO_MAGIC_LEN + (i + 1) * CPIO_FIELD_LEN)

/-- Shared decode of one hex header field into a value
(`EntryConversionError` on failure), the body of every accessor. -/
def CpioEntry.field (e : CpioEntry) (i : Nat) : Except Err Nat :=
  match from_str_radix16 (e.fieldBytes i) with
  | some v => .ok v
  | none => .error .entryConversionError

/-- `CpioEntry::mode` (src/lib.rs lines 595-603). -/
def CpioEntry.mode (e : CpioEntry) : Except Err Nat := e.field 1

/-- `CpioEntry::filesize` (src/lib.rs lines 677-685). -/
def CpioEntry.filesize (e : CpioEntry) : Except Err Nat := e.field 6

/-- `CpioEntry::namesize` (src/lib.rs lines 754-762). -/
def CpioEntry.namesize (e : CpioEntry) : Except Err Nat := e.field 11

/-- `CpioEntry::name` (src/lib.rs lines 769-778); `name_offset` is
`CPIO_HEADER_LEN` (line 766) and the slice is relative to `e.index`. -/
def CpioEntry.name (e : CpioEntry) : Except Err (List Byte) :=
  match e.namesize with
  | .error er => .error er
  | .ok nsize =>
    if CPIO_HEADER_LEN + nsize > e.mem.length - e.index then .error .earlyEOFError
    else .ok (slice e.mem (e.index + CPIO_HEADER_LEN) (e.index + CPIO_HEADER_LEN + nsize))

/-- `CpioEntry::file_content_offset` (src/lib.rs lines 689-699): past the
name, 4-byte aligned on the absolute position. -/
def CpioEntry.file_content_offset (e : CpioEntry) : Except Err Nat :=
  match e.namesize with
  | .error er => .error er
  | .ok nsize =>
    let nend := CPIO_HEADER_LEN + nsize
    if (e.index + nend) % 4 ≠ 0 then .ok (nend + (4 - (e.index + nend) % 4))
    else .ok nend

/-- `CpioEntry::file_content` (src/lib.rs lines 701-712).  Note the bound
is `fc_start + fc_size >= slice.len()`, with `>=` not `>`. -/
def CpioEntry.file_content (e : CpioEntry) : Except Err (List Byte) :=
  match e.file_content_offset with
  | .error er => .error er
  | .ok fc_start =>
    match e.filesize with
    | .error er => .error er
    | .ok fc_size =>
      if fc_start + fc_size ≥ e.mem.length - e.index then .error .earlyEOFError
      else .ok (slice e.mem (e.index + fc_start) (e.index + fc_start + fc_size))

/-- The name of the trailer entry: `b"TRAILER!!!\0"`. -/
def TRAILER_NAME : List Byte := strBytes "TRAILER!!!" ++ [0]

/-- `CpioEntry::is_trailer` (src/lib.rs lines 790-792).  Rust's `&&`
short-circuits, so `name()` is only consulted when the namesize is 0xB. -/
def CpioEntry.is_trailer (e : CpioEntry) : Except Err Bool :=
  match e.namesize with
  | .error er => .error er
  | .ok ns =>
    if ns = 0xb then
      match e.name with
      | .error er => .error er
      | .ok nm => .ok (decide (nm = TRAILER_NAME))
    else .ok false

/-- `CpioEntry::next` (src/lib.rs lines 795-801): offset of the next
entry, 4-byte aligned on the absolute position. -/
def CpioEntry.next (e : CpioEntry) : Except Err Nat :=
  match e.file_content_offset with
  | .error er => .error er
  | .ok fco =>
    match e.filesize with
    | .error er => .error er
    | .ok fsize =>
      let next_offset := e.index + fco + fsize
      if next_offset % 4 ≠ 0 then .ok (next_offset + (4 - next_offset % 4))
      else .ok next_offset

/-- `CpioEntry::valid_magic` (src/lib.rs lines 803-820). -/
def CpioEntry.valid_magic (e : CpioEntry) : Except Err Bool :=
  if e.mem.length - e.index < CPIO_MAGIC_LEN then .error .earlyEOFError
  else .ok ((magicBytes e.format).isPrefixOf (e.mem.drop e.index))

/-- `CpioEntryIter` (src/lib.rs lines 823-835). -/
structure CpioEntryIter where
  index : Nat
  archive_mem : List Byte
  format : CpioFormat
  trailer_seen : Bool
deriving DecidableEq

/-- `Cpio::iter_files` (src/lib.rs lines 387-389). -/
def iterFiles (mem : List Byte) (format : CpioFormat) : CpioEntryIter :=
  ⟨0, mem, format, false⟩

/-- One step of `CpioEntryIter::next` (src/lib.rs lines 841-869).  The
Rust method mutates `self`, so the model returns the updated iterator
alongside the result; `trailer_seen` is set as soon as `is_trailer`
returns true, before the magic check, exactly as in the source. -/
def iterNext (it : CpioEntryIter) : Except Err (Option CpioEntry) × CpioEntryIter :=
  if it.trailer_seen then (.ok none, it)
  else if it.index > it.archive_mem.length then (.error .earlyEOFError, it)
  else
    match CpioEntry.new it.index it.format it.archive_mem with
    | .error er => (.error er, it)
    | .ok file =>
      match file.is_trailer with
      | .error er => (.error er, it)
      | .ok isT =>
        let it1 := { it with trailer_seen := isT }
        match file.valid_magic with
        | .error er => (.error er, it1)
        | .ok vm =>
          if !vm then (.error .invalidArchiveError, it1)
          else
            match file.next with
            | .error er => (.error er, it1)
            | .ok nx => (.ok (some file), { it1 with index := nx })

end Rcpio

namespace Rcpio

def isCont (b : Byte) : Bool := 0x80 ≤ b && b ≤ 0xbf

def isValidUtf8 : List Byte → Bool
  | [] => true
  | b :: rest =>
    if b ≤ 0x7f then isValidUtf8 rest
    else if 0xc2 ≤ b ∧ b ≤ 0xdf then
      match rest with
      | c1 :: r => isCont c1 && isValidUtf8 r
      | _ => false
    else if b = 0xe0 then
      match rest with
      | c1 :: c2 :: r => (0xa0 ≤ c1 && c1 ≤ 0xbf) && isCont c2 && isValidUtf8 r
      | _ => false
    else if (0xe1 ≤ b ∧ b ≤ 0xec) ∨ b = 0xee ∨ b = 0xef then
      match rest with
      | c1 :: c2 :: r => isCont c1 && isCont c2 && isValidUtf8 r
      | _ => false
    else if b = 0xed then
      match rest with
      | c1 :: c2 :: r => (0x80 ≤ c1 && c1 ≤ 0x9f) && isCont c2 && isValidUtf8 r
      | _ => false
    else if b = 0xf0 then
      match rest with
      | c1 :: c2 :: c3 :: r => (0x90 ≤ c1 && c1 ≤ 0xbf) && isCont c2 && isCont c3 && isValidUtf8 r
      | _ => false
    else if 0xf1 ≤ b ∧ b ≤ 0xf3 then
      match rest with
      | c1 :: c2 :: c3 :: r => isCont c1 && isCont c2 && isCont c3 && isValidUtf8 r
      | _ => false
    else if b = 0xf4 then
      match rest with
      | c1 :: c2 :: c3 :: r => (0x80 ≤ c1 && c1 ≤ 0x8f) && isCont c2 && isCont c3 && isValidUtf8 r
      | _ => false
    else false

def trimZeros (bs : List Byte) : List Byte :=
  (bs.reverse.dropWhile (fun b => b == 0)).reverse

inductive ScanOutcome
  | panicked
  | errored (e : Err)
  | finished (tinfo : Option (Nat × CpioFormat))
deriving DecidableEq

def pushScanLoop (it : CpioEntryIter) (internal_path : List Byte)
    (tinfo : Option (Nat × CpioFormat)) : ScanOutcome :=
  match h : iterNext it with
  | (.error er, _) => .errored er
  | (.ok none, _) => .finished tinfo
  | (.ok (some entry), it') =>
    match entry.name with
    | .error er => .errored er
    | .ok nameBytes =>
      if isValidUtf8 nameBytes then
        if trimZeros nameBytes = internal_path then .panicked
        else
          match entry.is_trailer with
          | .error er => .errored er
          | .ok isT =>
            pushScanLoop it' internal_path
              (if isT then some (entry.index, entry.format) else tinfo)
      else .errored .stringEncodingError
termination_by it.archive_mem.length + CPIO_HEADER_LEN + 1 - it.index
decreasing_by
  have hC : CPIO_HEADER_LEN = 110 := rfl
  unfold iterNext at h
  split at h
  · simp at h
  split at h
  · simp at h
  split at h
  · simp at h
  rename_i file hnew
  split at h
  · simp at h
  rename_i isT0 hisT
  split at h
  · simp at h
  rename_i vm hvm
  split at h
  · simp at h
  split at h
  · simp at h
  rename_i nx hnx
  have hit : it' = ⟨nx, it.archive_mem, it.format, isT0⟩ := by
    have h2 := congrArg Prod.snd h
    simpa using h2.symm
  unfold CpioEntry.new at hnew
  split at hnew
  · simp at hnew
  have hfile : file = ⟨it.index, it.format, it.archive_mem⟩ := by
    simpa using hnew.symm
  subst hfile
  unfold CpioEntry.next at hnx
  split at hnx
  · simp at hnx
  rename_i fco hfco
  split at hnx
  · simp at hnx
  rename_i fsize hfs
  unfold CpioEntry.file_content_offset at hfco
  split at hfco
  · simp at hfco
  rename_i nsize hns
  simp only [] at hfco
  have hfco2 : CPIO_HEADER_LEN + nsize ≤ fco := by
    split at hfco
    · simp only [Except.ok.injEq] at hfco
      omega
    · simp only [Except.ok.injEq] at hfco
      omega
  simp only [] at hnx
  have hnx2 : it.index + fco + fsize ≤ nx := by
    split at hnx
    · simp only [Except.ok.injEq] at hnx
      omega
    · simp only [Except.ok.injEq] at hnx
      omega
  rw [hit]
  simp only []
  omega

/-- Outcome of `Cpio::push` (src/lib.rs lines 442-496).  `panicked` is the
`panic!` at line 453, a fatal non-recoverable abort; `written dat` means the
output file was created and `dat` was written to it — file creation happens
only on this path, after the scan completed. -/
inductive PushOutcome
  | panicked
  | errored (e : Err)
  | written (dat : List Byte)
deriving DecidableEq

/-- `Cpio::push` (src/lib.rs lines 442-496).  The scan loop runs first; the
output bytes are assembled and the file written only if the scan finishes
without panic or error and found a trailer.  `meta`/`content` stand for the
filesystem object being inserted (see `entry_bytes`); the final padding is
the literal `dat.len() % 100` / `4 - dat.len() % 4` code of lines 478-483. -/
def Cpio.push (mem : List Byte) (format : CpioFormat) (internal_path : List Byte)
    (meta : FileMeta) (content : List Byte) : PushOutcome :=
  match pushScanLoop (iterFiles mem format) internal_path none with
  | .panicked => .panicked
  | .errored er => .errored er
  | .finished none => .errored .invalidArchiveError
  | .finished (some (tIdx, tFmt)) =>
    let dat := mem.take tIdx ++ entry_bytes meta internal_path content tIdx tFmt
    let dat := dat ++ trailer_bytes tFmt
    .written (dat ++ (if dat.length % 100 ≠ 0 then List.replicate (4 - dat.length % 4) 0 else []))

/-- One component of a filesystem path, after the root.  `std::path`
normalizes away empty and `.` segments when a path is decomposed into
components, but keeps `..` (`ParentDir`) as a literal component. -/
inductive PathComp
  | parentDir
  | normal (s : List Byte)
deriving DecidableEq

/-- Split a byte string on `/` into segments. -/
def splitSegs (bs : List Byte) : List (List Byte) :=
  bs.foldr
    (fun b segs =>
      match segs with
      | [] => if b = 47 then [[]] else [[b]]
      | seg :: rest => if b = 47 then [] :: seg :: rest else (b :: seg) :: rest)
    [[]]

/-- Decompose a byte string into Rust `Path` components: a leading `/`
makes it absolute; empty and `.` segments vanish; `..` becomes
`ParentDir`.  (Returns absolute-flag and component list.) -/
def parsePath (bs : List Byte) : Bool × List PathComp :=
  let abs := bs.head? = some 47
  let comps := (splitSegs bs).filterMap
    (fun seg =>
      if seg = [] then none
      else if seg = [46] then none
      else if seg = [46, 46] then some PathComp.parentDir
      else some (PathComp.normal seg))
  (abs, comps)

/-- Rust `Path::join` of an absolute base (given as its component list)
with a parsed path: an absolute right-hand side replaces the base. -/
def joinPath (base : List PathComp) (p : Bool × List PathComp) : List PathComp :=
  if p.1 then p.2 else base ++ p.2

/-- What the operating system does when asked to create the filesystem
object at an absolute path: `..` components are resolved against the
directory tree (modelled lexically, with `..` at the root staying at the
root).  This is deliberately NOT what `std::path::absolute` does — that
function is purely lexical and keeps `..` components in place. -/
def resolvePath (p : List PathComp) : List PathComp :=
  p.foldl
    (fun acc c =>
      match c with
      | .parentDir => acc.dropLast
      | .normal s => acc ++ [PathComp.normal s])
    []

/-- The path handling of `Cpio::extract_one` (src/lib.rs lines 391-440) up
to the decision to materialize: decode the name, trim trailing nulls, join
onto the destination root, apply `std::path::absolute` (lexical: since the
root is already absolute, the joined component list is unchanged — in
particular a `..` component survives), then compare.  Returns `ok none`
when the joined path equals the root (the early `return Ok(())` of line
402-404, nothing written), `error` for the containment rejection of lines
406-408, and `ok (some joined)` when the code proceeds to create the
filesystem object at `joined` (lines 410-436). -/
def extractOnePathCheck (output_path : List PathComp) (nameBytes : List Byte) :
    Except Err (Option (List PathComp)) :=
  let trimmed := trimZeros nameBytes
  let joined := joinPath output_path (parsePath trimmed)
  if joined = output_path then .ok none
  else if ¬ output_path.isPrefixOf joined then .error .fileSystemError
  else .ok (some joined)

/-- The destination-root resolution at the top of `Cpio::unarchive`
(src/lib.rs lines 498-508).  The filesystem is modelled as the list of
absolute paths that exist.  `Path::canonicalize` fails for a path that
does not exist; only then does the code test `exists()` and call
`create_dir`, so that branch is unreachable — the returned flag records
whether `create_dir` was invoked. -/
def unarchiveResolveDest (existing : List (List PathComp)) (output_path : List PathComp) :
    Except Err (List PathComp × Bool) :=
  if existing.contains (resolvePath output_path) then
    let op := resolvePath output_path
    if existing.contains op then .ok (op, false) else .ok (op, true)
  else .error .fileSystemError

/-- Is `b` the ASCII code of an uppercase hexadecimal digit? -/
def isUpperHexDigit (b : Byte) : Bool :=
  (48 ≤ b && b ≤ 57) || (65 ≤ b && b ≤ 70)

/-- An all-zero 8-character header field. -/
def zeroField : List Byte := strBytes "00000000"

/-- A `CpioBuilderEntry` whose checksum field is 1 and all other fields 0
(used to exercise `to_bytes` at a concrete input). -/
def checkOneEntry : CpioBuilderEntry :=
  ⟨0, 0, 0, 0, 0, 0, 0, 0, 0, 0, 0, 0, 1⟩

/-- A concrete well-formed NEWC archive: one entry named `a` (namesize 2,
filesize 0, all other fields 0) followed by the trailer.  233 bytes. -/
def dupArchive : List Byte :=
  strBytes "070701" ++ zeroField ++ zeroField ++ zeroField ++ zeroField ++
    zeroField ++ zeroField ++ zeroField ++ zeroField ++ zeroField ++
    zeroField ++ zeroField ++ strBytes "00000002" ++ zeroField ++
    [97, 0] ++ trailer_bytes CpioFormat.newc

/-- A concrete truncated NEWC entry: namesize 2, filesize 4, name `a`,
and exactly 4 content bytes ending flush with the end of the buffer.
116 bytes: the content region is fully in bounds but nothing follows it. -/
def eofArchive : List Byte :=
  strBytes "070701" ++ zeroField ++ zeroField ++ zeroField ++ zeroField ++
    zeroField ++ zeroField ++ strBytes "00000004" ++ zeroField ++
    zeroField ++ zeroField ++ zeroField ++ strBytes "00000002" ++
    zeroField ++ [97, 0] ++ [1, 2, 3, 4]

/-- `Yields it es it'` holds when successive successful calls of
`CpioEntryIter::next` starting from state `it` yield exactly the entries
`es` and leave the iterator in state `it'`. -/
inductive Yields : CpioEntryIter → List CpioEntry → CpioEntryIter → Prop
  | nil (it : CpioEntryIter) : Yields it [] it
  | cons {it it' it'' : CpioEntryIter} {e : CpioEntry} {es : List CpioEntry} :
      iterNext it = (.ok (some e), it') → Yields it' es it'' →
      Yields it (e :: es) it''

/-! ## Supporting lemmas -/

theorem hexUpper8_length (v : Nat) : (hexUpper8 v).length = 8 := by
  simp [hexUpper8]

theorem magicBytes_length (format : CpioFormat) : (magicBytes format).length = 6 := by
  cases format <;> rfl

theorem to_bytes_split (e : CpioBuilderEntry) (format : CpioFormat) :
    e.to_bytes format =
      (magicBytes format ++ hexUpper8 e.c_ino ++ hexUpper8 e.c_mode ++
        hexUpper8 e.c_uid ++ hexUpper8 e.c_gid ++ hexUpper8 e.c_nlink ++
        hexUpper8 e.c_mtime ++ hexUpper8 e.c_filesize ++ hexUpper8 e.c_devmajor ++
        hexUpper8 e.c_devminor ++ hexUpper8 e.c_rdevmajor ++ hexUpper8 e.c_rdevminor ++
        hexUpper8 e.c_namesize) ++ hexUpper8 e.c_check := by
  simp [CpioBuilderEntry.to_bytes, CpioBuilderEntry.fieldList, List.append_assoc]

theorem to_bytes_length (e : CpioBuilderEntry) (format : CpioFormat) :
    (e.to_bytes format).length = 110 := by
  rw [to_bytes_split]
  simp [hexUpper8_length, magicBytes_length]

theorem slice_at_end (a b : List Byte) (ha : a.length = 102) (hb : b.length = 8) :
    slice (a ++ b) 102 110 = b := by
  unfold slice
  rw [show (110 : Nat) = a.length + 8 by omega, List.take_append,
    List.take_of_length_le (by omega), ← ha, List.drop_left]

theorem to_bytes_check_slice (e : CpioBuilderEntry) (format : CpioFormat) :
    slice (e.to_bytes format) 102 110 = hexUpper8 e.c_check := by
  rw [to_bytes_split]
  exact slice_at_end _ _ (by simp [hexUpper8_length, magicBytes_length]) (hexUpper8_length _)

theorem slice_header (a r : List Byte) (ha : a.length = 110) :
    slice (a ++ r) 102 110 = slice a 102 110 := by
  unfold slice
  rw [List.take_append_of_le_length (by omega)]

theorem hexDigitChar_upper (n : Nat) (h : n < 16) :
    isUpperHexDigit (hexDigitChar n) = true := by
  unfold hexDigitChar
  split <;>
    simp only [isUpperHexDigit, Bool.or_eq_true, Bool.and_eq_true, decide_eq_true_eq]
  · exact Or.inl ⟨by show (48 : Nat) ≤ 48 + n; omega, by show 48 + n ≤ (57 : Nat); omega⟩
  · exact Or.inr ⟨by show (65 : Nat) ≤ 55 + n; omega, by show 55 + n ≤ (70 : Nat); omega⟩

theorem hexUpper8_digits (v : Nat) : ∀ b ∈ hexUpper8 v, isUpperHexDigit b = true := by
  intro b hb
  simp only [hexUpper8, List.mem_map, List.mem_range] at hb
  obtain ⟨i, _, rfl⟩ := hb
  exact hexDigitChar_upper _ (Nat.mod_lt _ (by norm_num))

/-! ## C3 -/

/-- C3 counterexample: the claim says every trailer header field other
than namesize and filesize encodes zero, but the fifth field (`c_nlink`,
bytes 38-46 of the trailer image) encodes 1. -/
theorem c3_trailer_nlink_counterexample :
    slice (trailer_bytes CpioFormat.newc) 38 46 = strBytes "00000001" ∧
    strBytes "00000001" ≠ strBytes "00000000" := by
  constructor
  · decide
  · decide

/-- C3 (amended): the trailer emitted by the builder is the 6-byte magic,
then a fixed 104-byte field block in which namesize encodes 0x0B, nlink
encodes 1 and every other field (filesize included) encodes zero, then the
name `TRAILER!!!` plus a terminating null; 121 bytes in total. -/
theorem c3_trailer_layout (format : CpioFormat) :
    (trailer_bytes format).length = 121 ∧
    trailer_bytes format =
      magicBytes format ++
        (strBytes "00000000" ++ strBytes "00000000" ++ strBytes "00000000" ++
          strBytes "00000000" ++ strBytes "00000001" ++ strBytes "00000000" ++
          strBytes "00000000" ++ strBytes "00000000" ++ strBytes "00000000" ++
          strBytes "00000000" ++ strBytes "00000000" ++ strBytes "0000000B" ++
          strBytes "00000000") ++
        (strBytes "TRAILER!!!" ++ [0]) := by
  cases format <;> exact ⟨by decide, by decide⟩

/-! ## C5 -/

/-- C5 counterexample: `to_bytes` encodes whatever `c_check` holds, for
NEWC too; with `c_check = 1` the checksum field of a NEWC header is
`00000001`, not `00000000`. -/
theorem c5_newc_check_counterexample :
    slice (checkOneEntry.to_bytes CpioFormat.newc) 102 110 = strBytes "00000001" ∧
    strBytes "00000001" ≠ strBytes "00000000" := by
  constructor
  · decide
  · decide

theorem hexDigitChar_eq_48 (n : Nat) (h16 : n < 16) (h : hexDigitChar n = 48) : n = 0 := by
  unfold hexDigitChar at h
  split at h
  · have h' : (48 : Nat) + n = 48 := h
    omega
  · have h' : (55 : Nat) + n = 48 := h
    omega

theorem hexUpper8_eq_zeroField (v : Nat) :
    hexUpper8 v = strBytes "00000000" ↔ v % 2 ^ 32 = 0 := by
  constructor
  · intro h
    have e0 : hexDigitChar (v / 16 ^ 7 % 16) = 48 := congrArg (fun l => l.getD 0 0) h
    have e1 : hexDigitChar (v / 16 ^ 6 % 16) = 48 := congrArg (fun l => l.getD 1 0) h
    have e2 : hexDigitChar (v / 16 ^ 5 % 16) = 48 := congrArg (fun l => l.getD 2 0) h
    have e3 : hexDigitChar (v / 16 ^ 4 % 16) = 48 := congrArg (fun l => l.getD 3 0) h
    have e4 : hexDigitChar (v / 16 ^ 3 % 16) = 48 := congrArg (fun l => l.getD 4 0) h
    have e5 : hexDigitChar (v / 16 ^ 2 % 16) = 48 := congrArg (fun l => l.getD 5 0) h
    have e6 : hexDigitChar (v / 16 ^ 1 % 16) = 48 := congrArg (fun l => l.getD 6 0) h
    have e7 : hexDigitChar (v / 16 ^ 0 % 16) = 48 := congrArg (fun l => l.getD 7 0) h
    have d0 := hexDigitChar_eq_48 _ (Nat.mod_lt _ (by norm_num)) e0
    have d1 := hexDigitChar_eq_48 _ (Nat.mod_lt _ (by norm_num)) e1
    have d2 := hexDigitChar_eq_48 _ (Nat.mod_lt _ (by norm_num)) e2
    have d3 := hexDigitChar_eq_48 _ (Nat.mod_lt _ (by norm_num)) e3
    have d4 := hexDigitChar_eq_48 _ (Nat.mod_lt _ (by norm_num)) e4
    have d5 := hexDigitChar_eq_48 _ (Nat.mod_lt _ (by norm_num)) e5
    have d6 := hexDigitChar_eq_48 _ (Nat.mod_lt _ (by norm_num)) e6
    have d7 := hexDigitChar_eq_48 _ (Nat.mod_lt _ (by norm_num)) e7
    norm_num at d0 d1 d2 d3 d4 d5 d6 d7 ⊢
    omega
  · intro h
    have hch : ∀ k, k < 8 → v / 16 ^ (7 - k) % 16 = 0 := by
      intro k hk
      interval_cases k <;> norm_num <;> omega
    apply List.ext_getElem
    · simp [hexUpper8, strBytes]
    · intro i h1 h2
      simp only [hexUpper8, List.getElem_map, List.getElem_range]
      rw [hch i (by simpa [hexUpper8] using h1)]
      have hz : strBytes "00000000" = List.replicate 8 48 := by decide
      simp only [hz, List.getElem_replicate]
      rfl

theorem slice_flatten_block (ls : List (List Byte)) :
    ∀ (i : Nat) (a : List Byte), (∀ l ∈ ls, l.length = 8) → i < ls.length →
      slice (a ++ ls.flatten) (a.length + 8 * i) (a.length + 8 * (i + 1)) = ls.getD i [] := by
  induction ls with
  | nil => intro i a _ hi; simp at hi
  | cons l t ih =>
    intro i a hlen hi
    have hl : l.length = 8 := hlen l (List.mem_cons_self l t)
    rw [List.flatten_cons, show a ++ (l ++ t.flatten) = (a ++ l) ++ t.flatten from
      (List.append_assoc a l t.flatten).symm]
    cases i with
    | zero =>
      unfold slice
      rw [Nat.mul_zero, Nat.add_zero, Nat.mul_one]
      rw [List.take_append_of_le_length (by simp [hl])]
      rw [show a.length + 8 = (a ++ l).length by simp [hl]]
      rw [List.take_length, List.drop_left]
      simp
    | succ j =>
      have h1 : a.length + 8 * (j + 1) = (a ++ l).length + 8 * j := by
        simp [List.length_append, hl]
        omega
      have h2 : a.length + 8 * (j + 1 + 1) = (a ++ l).length + 8 * (j + 1) := by
        simp [List.length_append, hl]
        omega
      rw [h1, h2]
      have := ih j (a ++ l) (fun l' hl' => hlen l' (List.mem_cons_of_mem _ hl'))
        (by simpa using hi)
      simpa using this

theorem fieldList_length (e : CpioBuilderEntry) : e.fieldList.length = 13 := rfl

theorem to_bytes_field_slice (e : CpioBuilderEntry) (format : CpioFormat) :
    ∀ i, i < 13 → slice (e.to_bytes format) (6 + 8 * i) (6 + 8 * (i + 1)) =
      hexUpper8 (e.fieldList.getD i 0) := by
  intro i hi
  unfold CpioBuilderEntry.to_bytes
  have hmap : ∀ l ∈ e.fieldList.map hexUpper8, l.length = 8 := by
    intro l hl
    rw [List.mem_map] at hl
    obtain ⟨v, _, rfl⟩ := hl
    exact hexUpper8_length v
  have hlen : (e.fieldList.map hexUpper8).length = 13 := by
    simp [CpioBuilderEntry.fieldList]
  have h := slice_flatten_block (e.fieldList.map hexUpper8) i (magicBytes format) hmap
    (by rw [hlen]; exact hi)
  rw [magicBytes_length] at h
  rw [h]
  rw [List.getD_eq_getElem _ _ (by rw [hlen]; exact hi), List.getElem_map,
    List.getD_eq_getElem _ _ (by rw [fieldList_length]; exact hi)]

/-- C5 (amended): for every `CpioBuilderEntry` and either format,
`to_bytes` produces exactly 110 bytes: the 6-byte magic for the chosen
format followed by 13 concatenated fields, each exactly 8 uppercase
hexadecimal ASCII digits of the corresponding 32-bit field value (field
`i` occupies bytes `6+8*i` to `6+8*(i+1)` and is `hexUpper8` of that
field); the checksum field encodes `c_check` like every other field, so
it is `00000000` exactly when `c_check` is zero as a 32-bit value —
`entry_bytes` always sets it to zero for the NEWC format, but `to_bytes`
itself does not enforce that. -/
theorem c5_to_bytes_shape (e : CpioBuilderEntry) (format : CpioFormat) :
    (e.to_bytes format).length = 110 ∧
    (e.to_bytes format).take 6 = magicBytes format ∧
    (∀ i, i < 13 → slice (e.to_bytes format) (6 + 8 * i) (6 + 8 * (i + 1)) =
      hexUpper8 (e.fieldList.getD i 0)) ∧
    (∀ b ∈ (e.to_bytes format).drop 6, isUpperHexDigit b = true) ∧
    (e.c_check = 0 → slice (e.to_bytes format) 102 110 = strBytes "00000000") ∧
    (slice (e.to_bytes format) 102 110 = strBytes "00000000" ↔ e.c_check % 2 ^ 32 = 0) := by
  refine ⟨to_bytes_length e format, ?_, to_bytes_field_slice e format, ?_, ?_, ?_⟩
  · unfold CpioBuilderEntry.to_bytes
    rw [show (6 : Nat) = (magicBytes format).length from (magicBytes_length format).symm,
      List.take_left]
  · intro b hb
    unfold CpioBuilderEntry.to_bytes at hb
    rw [show (6 : Nat) = (magicBytes format).length from (magicBytes_length format).symm,
      List.drop_left] at hb
    rw [List.mem_flatten] at hb
    obtain ⟨l, hl, hbl⟩ := hb
    rw [List.mem_map] at hl
    obtain ⟨v, _, rfl⟩ := hl
    exact hexUpper8_digits v b hbl
  · intro hc
    rw [to_bytes_check_slice, hc]
    decide
  · rw [to_bytes_check_slice]
    exact hexUpper8_eq_zeroField e.c_check

/-- C5 witness: the shape theorem evaluated at the all-zero entry under
NEWC format, including the checksum-field instance of the per-field
decomposition. -/
theorem c5_witness :
    ((⟨0, 0, 0, 0, 0, 0, 0, 0, 0, 0, 0, 0, 0⟩ : CpioBuilderEntry).to_bytes
        CpioFormat.newc).length = 110 ∧
    slice ((⟨0, 0, 0, 0, 0, 0, 0, 0, 0, 0, 0, 0, 0⟩ : CpioBuilderEntry).to_bytes
        CpioFormat.newc) 102 110 = strBytes "00000000" ∧
    slice ((⟨0, 0, 0, 0, 0, 0, 0, 0, 0, 0, 0, 0, 0⟩ : CpioBuilderEntry).to_bytes
        CpioFormat.newc) (6 + 8 * 12) (6 + 8 * (12 + 1)) = hexUpper8 0 :=
  ⟨(c5_to_bytes_shape ⟨0, 0, 0, 0, 0, 0, 0, 0, 0, 0, 0, 0, 0⟩ CpioFormat.newc).1,
   (c5_to_bytes_shape ⟨0, 0, 0, 0, 0, 0, 0, 0, 0, 0, 0, 0, 0⟩ CpioFormat.newc).2.2.2.2.1 rfl,
   (c5_to_bytes_shape ⟨0, 0, 0, 0, 0, 0, 0, 0, 0, 0, 0, 0, 0⟩ CpioFormat.newc).2.2.1 12
     (by norm_num)⟩

/-! ## C6 -/

theorem foldl_add_mod (l : List Nat) :
    ∀ r : Nat, l.foldl (fun res b => (res + b) % 2 ^ 32) (r % 2 ^ 32) = (r + l.sum) % 2 ^ 32 := by
  induction l with
  | nil => intro r; simp
  | cons b t ih =>
    intro r
    simp only [List.foldl_cons, List.sum_cons]
    have h1 : (r % 2 ^ 32 + b) % 2 ^ 32 = (r + b) % 2 ^ 32 := by omega
    rw [h1, ih (r + b)]
    omega

theorem cpioChecksum_crc_sum (content : List Byte) :
    cpioChecksum CpioFormat.crc false content = content.sum % 2 ^ 32 := by
  have h := foldl_add_mod content 0
  simpa [cpioChecksum] using h

/-- C6: the checksum encoded into the header that `entry_bytes` serializes
(bytes 102-110 of the produced entry) is `cpioChecksum`, which is zero when
the format is NEWC, zero when the entry is a symlink regardless of format,
and otherwise the 32-bit wrapping sum of all content bytes. -/
theorem c6_entry_checksum (meta : FileMeta) (internal_path content : List Byte)
    (curr_len : Nat) (format : CpioFormat) :
    slice (entry_bytes meta internal_path content curr_len format) 102 110 =
      hexUpper8 (cpioChecksum format meta.is_symlink content) ∧
    cpioChecksum CpioFormat.newc meta.is_symlink content = 0 ∧
    cpioChecksum CpioFormat.crc true content = 0 ∧
    cpioChecksum CpioFormat.crc false content = content.sum % 2 ^ 32 := by
  refine ⟨?_, rfl, rfl, cpioChecksum_crc_sum content⟩
  unfold entry_bytes
  simp only [List.append_assoc]
  rw [slice_header _ _ (to_bytes_length _ _), to_bytes_check_slice]

/-! ## C2 -/

theorem pad4_align (x : Nat) : (x + (pad4 x).length) % 4 = 0 := by
  unfold pad4
  split
  · simpa
  · rw [List.length_replicate]
    omega

theorem entry_bytes_align (meta : FileMeta) (internal_path content : List Byte)
    (curr_len : Nat) (format : CpioFormat) :
    (curr_len + (entry_bytes meta internal_path content curr_len format).length) % 4 = 0 := by
  unfold entry_bytes
  simp only [List.length_append]
  rw [← Nat.add_assoc]
  exact pad4_align _

theorem writeEntries_align (format : CpioFormat) (es : List BuilderInput) :
    ∀ out : List Byte, out.length % 4 = 0 → (writeEntries format es out).length % 4 = 0 := by
  induction es with
  | nil => intro out h; simpa [writeEntries]
  | cons e t ih =>
    intro out h
    obtain ⟨meta, path, content⟩ := e
    rw [writeEntries]
    apply ih
    rw [List.length_append]
    exact entry_bytes_align meta path content out.length format

theorem trailer_bytes_length (format : CpioFormat) : (trailer_bytes format).length = 121 := by
  cases format <;> rfl

/-- C2: the archive image produced by `CpioBuilder::write` always has a
length that is a multiple of 512.  Every entry ends 4-byte aligned, the
trailer is 121 bytes, so the pre-padding length is always odd; hence the
`% 200` guard always fires and the `0x200`-sized padding really pads to
the next 512-byte boundary. -/
theorem c2_write_block_aligned (entries : List BuilderInput) (format : CpioFormat) :
    (CpioBuilder.write entries format).length % 512 = 0 := by
  unfold CpioBuilder.write
  have h4 : (writeEntries format entries []).length % 4 = 0 :=
    writeEntries_align format entries [] (by simp)
  have ht := trailer_bytes_length format
  simp only [List.length_append, ht]
  set L0 := (writeEntries format entries []).length with hL0
  split
  · rw [List.length_replicate]
    omega
  · omega

/-! ## C7 -/

theorem and_mask_ff (x : Nat) : x &&& 0xff = x % 2 ^ 8 := by
  have h : (0xff : Nat) = 2 ^ 8 - 1 := by norm_num
  rw [h, Nat.and_pow_two_sub_one_eq_mod]

theorem and_mask_fff (x : Nat) : x &&& 0xfff = x % 2 ^ 12 := by
  have h : (0xfff : Nat) = 2 ^ 12 - 1 := by norm_num
  rw [h, Nat.and_pow_two_sub_one_eq_mod]

theorem and_mask_fff00 (x : Nat) : x &&& 0xfff00 = x / 2 ^ 8 % 2 ^ 12 * 2 ^ 8 := by
  apply Nat.eq_of_testBit_eq
  intro i
  have hconst : (0xfff00 : Nat) = 2 ^ 8 * (2 ^ 12 - 1) := by norm_num
  have hr : x / 2 ^ 8 % 2 ^ 12 * 2 ^ 8 = 2 ^ 8 * (x / 2 ^ 8 % 2 ^ 12) := Nat.mul_comm _ _
  rw [Nat.testBit_and, hconst, Nat.testBit_mul_pow_two, hr, Nat.testBit_mul_pow_two,
    Nat.testBit_two_pow_sub_one, Nat.testBit_mod_two_pow]
  rw [show x / 2 ^ 8 = x >>> 8 from (Nat.shiftRight_eq_div_pow x 8).symm, Nat.testBit_shiftRight]
  by_cases h8 : 8 ≤ i
  · have hi : 8 + (i - 8) = i := by omega
    rw [hi]
    simp [ge_iff_le, h8, Bool.and_comm]
  · simp [ge_iff_le, h8]

theorem lor_eq_add_of_lt (a k n : Nat) (h : a < 2 ^ n) : a ||| k * 2 ^ n = a + k * 2 ^ n := by
  calc a ||| k * 2 ^ n = 2 ^ n * k ||| a := by rw [Nat.lor_comm, Nat.mul_comm]
  _ = 2 ^ n * k + a := (Nat.mul_add_lt_is_or h k).symm
  _ = a + k * 2 ^ n := by rw [Nat.add_comm, Nat.mul_comm]

/-- C7: `major` extracts bits 8-19 of a raw 32-bit device number, `minor`
extracts bits 0-7 into its low byte and bits 20-31 into its bits 8-19, and
recomposing per the spec's packing rule reproduces the device number
exactly.  Bit ranges are stated arithmetically: bits 8-19 of `d` are
`d / 2 ^ 8 % 2 ^ 12`, bits 20-31 are `d / 2 ^ 20`. -/
theorem c7_dev_packing (d : Nat) (h : d < 2 ^ 32) :
    major d = d / 2 ^ 8 % 2 ^ 12 ∧
    minor d = d % 2 ^ 8 + d / 2 ^ 20 % 2 ^ 12 * 2 ^ 8 ∧
    recomposeDev (major d) (minor d) = d := by
  have hmaj : major d = d / 2 ^ 8 % 2 ^ 12 := by
    unfold major
    rw [Nat.shiftRight_eq_div_pow, and_mask_fff]
  have hmin : minor d = d % 2 ^ 8 + d / 2 ^ 20 % 2 ^ 12 * 2 ^ 8 := by
    unfold minor
    rw [and_mask_ff, Nat.shiftRight_eq_div_pow, and_mask_fff00, Nat.div_div_eq_div_mul]
    norm_num
    exact lor_eq_add_of_lt _ _ 8 (Nat.mod_lt _ (by norm_num))
  refine ⟨hmaj, hmin, ?_⟩
  unfold recomposeDev
  rw [hmaj, hmin]
  have h1 : (d % 2 ^ 8 + d / 2 ^ 20 % 2 ^ 12 * 2 ^ 8) &&& 0xff = d % 2 ^ 8 := by
    rw [and_mask_ff]
    omega
  have h2 : (d % 2 ^ 8 + d / 2 ^ 20 % 2 ^ 12 * 2 ^ 8) >>> 8 = d / 2 ^ 20 % 2 ^ 12 := by
    rw [Nat.shiftRight_eq_div_pow]
    omega
  have h3 : d / 2 ^ 20 % 2 ^ 12 &&& 0xfff = d / 2 ^ 20 % 2 ^ 12 := by
    rw [and_mask_fff]
    omega
  rw [h1, h2, h3, Nat.shiftLeft_eq, Nat.shiftLeft_eq]
  rw [Nat.lor_comm (d / 2 ^ 8 % 2 ^ 12 * 2 ^ 8) (d % 2 ^ 8)]
  rw [lor_eq_add_of_lt _ _ 8 (Nat.mod_lt _ (by norm_num))]
  rw [lor_eq_add_of_lt _ _ 20 (by omega)]
  omega

/-- C7 witness: the packing round-trip evaluated at the concrete device
number `0x12345678`. -/
theorem c7_witness : recomposeDev (major 0x12345678) (minor 0x12345678) = 0x12345678 :=
  (c7_dev_packing 0x12345678 (by norm_num)).2.2

/-! ## C10 -/

/-- C10: `CpioEntry::file_content` uses the bound `fc_start + fc_size >=
slice.len()`, so a content region ending flush with the last byte of the
buffer is rejected with `EarlyEOFError` even though it is fully in bounds;
the content slice is returned only when at least one byte of the buffer
follows the content region. -/
theorem c10_file_content_eof (e : CpioEntry) (off sz : Nat)
    (hoff : e.file_content_offset = .ok off) (hsz : e.filesize = .ok sz) :
    (off + sz = e.mem.length - e.index → e.file_content = .error Err.earlyEOFError) ∧
    (∀ c, e.file_content = .ok c → off + sz < e.mem.length - e.index) := by
  have hred : e.file_content =
      if off + sz ≥ e.mem.length - e.index then .error Err.earlyEOFError
      else .ok (slice e.mem (e.index + off) (e.index + off + sz)) := by
    unfold CpioEntry.file_content
    rw [hoff, hsz]
  constructor
  · intro hend
    rw [hred, if_pos (by omega)]
  · intro c hc
    rw [hred] at hc
    split at hc
    · exact absurd hc (by simp)
    · omega

/-- C10 witness: the 116-byte buffer `eofArchive` whose single entry has
content bytes 112-116, ending exactly at the end of the buffer. -/
theorem c10_witness :
    CpioEntry.file_content ⟨0, CpioFormat.newc, eofArchive⟩ = .error Err.earlyEOFError :=
  (c10_file_content_eof ⟨0, CpioFormat.newc, eofArchive⟩ 112 4 (by decide) (by decide)).1
    (by decide)

/-! ## C8 -/

/-- C8: `is_trailer` holds exactly when the namesize field decodes to 0x0B
and the name bytes are `TRAILER!!!` plus a terminating null; it is a
function of those two accessors only (in particular the mode field plays
no role); and once the iterator has yielded a trailer entry its
`trailer_seen` flag is set, after which every call returns `Ok(None)` with
the state unchanged. -/
theorem c8_trailer_detection :
    (∀ e : CpioEntry, e.is_trailer = .ok true ↔
      e.namesize = .ok 0xb ∧ e.name = .ok TRAILER_NAME) ∧
    (∀ e₁ e₂ : CpioEntry, e₁.namesize = e₂.namesize → e₁.name = e₂.name →
      e₁.is_trailer = e₂.is_trailer) ∧
    (∀ it e it', iterNext it = (.ok (some e), it') → e.is_trailer = .ok true →
      it'.trailer_seen = true) ∧
    (∀ it : CpioEntryIter, it.trailer_seen = true → iterNext it = (.ok none, it)) := by
  refine ⟨?_, ?_, ?_, ?_⟩
  · intro e
    unfold CpioEntry.is_trailer
    rcases hns : e.namesize with er | ns
    · simp [hns]
    · by_cases h11 : ns = 0xb
      · subst h11
        rcases hnm : e.name with er | nm
        · simp [hnm]
        · simp [hnm]
      · simp [h11]
  · intro e₁ e₂ h1 h2
    unfold CpioEntry.is_trailer
    rw [h1, h2]
  · intro it e it' hstep htr
    unfold iterNext at hstep
    split at hstep
    · simp at hstep
    split at hstep
    · simp at hstep
    split at hstep
    · simp at hstep
    rename_i file hnew
    split at hstep
    · simp at hstep
    rename_i isT0 hisT
    split at hstep
    · simp at hstep
    rename_i vm hvm
    split at hstep
    · simp at hstep
    split at hstep
    · simp at hstep
    rename_i nx hnx
    have h2 := congrArg Prod.snd hstep
    have h1 := congrArg Prod.fst hstep
    simp only [] at h1 h2
    have hfe : file = e := by simpa using h1
    rw [← h2]
    subst hfe
    rw [hisT] at htr
    simpa using htr.symm
  · intro it h
    unfold iterNext
    rw [if_pos h]

set_option maxRecDepth 40000 in
/-- C8 witness: on the concrete archive `dupArchive` the step at offset
112 yields the trailer, and the next call from the resulting state
returns `Ok(None)` with the state unchanged. -/
theorem c8_witness :
    iterNext ⟨236, dupArchive, CpioFormat.newc, true⟩ =
      (.ok none, ⟨236, dupArchive, CpioFormat.newc, true⟩) :=
  c8_trailer_detection.2.2.2 ⟨236, dupArchive, CpioFormat.newc, true⟩
    (c8_trailer_detection.2.2.1 ⟨112, dupArchive, CpioFormat.newc, false⟩
      ⟨112, CpioFormat.newc, dupArchive⟩ ⟨236, dupArchive, CpioFormat.newc, true⟩
      (by decide) (by decide))

/-! ## C9 -/

theorem iterNext_ok_is_trailer {it it' : CpioEntryIter} {e : CpioEntry}
    (h : iterNext it = (.ok (some e), it')) : ∃ b, e.is_trailer = .ok b := by
  unfold iterNext at h
  split at h
  · simp at h
  split at h
  · simp at h
  split at h
  · simp at h
  rename_i file hnew
  split at h
  · simp at h
  rename_i isT0 hisT
  split at h
  · simp at h
  rename_i vm hvm
  split at h
  · simp at h
  split at h
  · simp at h
  rename_i nx hnx
  have h1 := congrArg Prod.fst h
  have hfe : file = e := by simpa using h1
  subst hfe
  exact ⟨isT0, hisT⟩

theorem pushScanLoop_panic (path : List Byte) (e : CpioEntry) :
    ∀ (prior : List CpioEntry) (it itF : CpioEntryIter) (tinfo : Option (Nat × CpioFormat)),
      Yields it (prior ++ [e]) itF →
      (∀ p ∈ prior, ∃ nb, p.name = .ok nb ∧ isValidUtf8 nb = true ∧ trimZeros nb ≠ path) →
      (∃ nb, e.name = .ok nb ∧ isValidUtf8 nb = true ∧ trimZeros nb = path) →
      pushScanLoop it path tinfo = .panicked := by
  intro prior
  induction prior with
  | nil =>
    intro it itF tinfo hy hprior hdup
    rw [List.nil_append] at hy
    rcases hy with _ | @⟨_, itMid, _, _, _, hstep, hrest⟩
    obtain ⟨nb, hnm, hutf, htrim⟩ := hdup
    rw [pushScanLoop]
    split
    · rename_i heq
      rw [hstep] at heq
      simp at heq
    · rename_i heq
      rw [hstep] at heq
      simp at heq
    · rename_i entry it2 heq
      rw [hstep] at heq
      have he : entry = e := by simpa using congrArg (fun q => Prod.fst q) heq.symm
      subst he
      simp only [hnm]
      rw [if_pos hutf, if_pos htrim]
  | cons p t ih =>
    intro it itF tinfo hy hprior hdup
    rw [List.cons_append] at hy
    rcases hy with _ | @⟨_, itMid, _, _, _, hstep, hrest⟩
    rw [pushScanLoop]
    split
    · rename_i heq
      rw [hstep] at heq
      simp at heq
    · rename_i heq
      rw [hstep] at heq
      simp at heq
    · rename_i entry it2 heq
      rw [hstep] at heq
      have he : entry = p := by simpa using congrArg (fun q => Prod.fst q) heq.symm
      have hit2 : it2 = itMid := by simpa using congrArg (fun q => Prod.snd q) heq.symm
      subst he
      subst hit2
      obtain ⟨nb, hnm, hutf, hne⟩ := hprior entry (List.mem_cons_self entry t)
      simp only [hnm]
      rw [if_pos hutf, if_neg hne]
      obtain ⟨isT, hisT⟩ := iterNext_ok_is_trailer hstep
      simp only [hisT]
      exact ih it2 itF _ hrest (fun q hq => hprior q (List.mem_cons_of_mem entry hq)) hdup

/-- C9: if the iterator scan of `Cpio::push` yields an entry whose decoded,
null-trimmed name equals the internal path being inserted (after earlier
yielded entries all decoded to different names), then `push` ends in the
fatal `panic!` — not a returned error — and in particular no output file
is created and no bytes are written (those happen only in the `written`
outcome, after the scan). -/
theorem c9_push_duplicate_panics (mem : List Byte) (format : CpioFormat)
    (path : List Byte) (meta : FileMeta) (content : List Byte)
    (prior : List CpioEntry) (e : CpioEntry) (itF : CpioEntryIter)
    (hyield : Yields (iterFiles mem format) (prior ++ [e]) itF)
    (hprior : ∀ p ∈ prior, ∃ nb, p.name = .ok nb ∧ isValidUtf8 nb = true ∧
      trimZeros nb ≠ path)
    (hdup : ∃ nb, e.name = .ok nb ∧ isValidUtf8 nb = true ∧ trimZeros nb = path) :
    Cpio.push mem format path meta content = .panicked := by
  unfold Cpio.push
  rw [pushScanLoop_panic path e prior (iterFiles mem format) itF none hyield hprior hdup]

set_option maxRecDepth 40000 in
/-- C9 witness: pushing path `a` into the concrete archive `dupArchive`,
whose first entry is already named `a`, panics. -/
theorem c9_witness :
    Cpio.push dupArchive CpioFormat.newc [97] ⟨0, 0, 0, 0, 0, 0, 0, 0, false⟩ [] =
      PushOutcome.panicked :=
  c9_push_duplicate_panics dupArchive CpioFormat.newc [97]
    ⟨0, 0, 0, 0, 0, 0, 0, 0, false⟩ [] []
    ⟨0, CpioFormat.newc, dupArchive⟩ ⟨112, dupArchive, CpioFormat.newc, false⟩
    (Yields.cons (by decide) (Yields.nil _))
    (by simp)
    ⟨[97, 0], by decide, by decide, by decide⟩

/-! ## C1 -/

/-- C1: the path-containment check of `Cpio::extract_one` does NOT reject
the entry name `../evil`.  `std::path::absolute` is lexical and keeps the
`..` component, and `Path::starts_with` is a component-wise prefix test,
so `/tmp/out/../evil` passes the check (`extractOnePathCheck` proceeds to
materialize, it returns neither the root no-op nor the rejection error) —
yet the operating system resolves that path to `/tmp/evil`, which is
outside the destination root `/tmp/out`.  The claim (extraction fails with
a filesystem error before any write, and creates nothing outside the
root) is therefore violated by the code at this input. -/
theorem c1_path_traversal_divergence :
    extractOnePathCheck
        [PathComp.normal (strBytes "tmp"), PathComp.normal (strBytes "out")]
        (strBytes "../evil" ++ [0]) =
      .ok (some [PathComp.normal (strBytes "tmp"), PathComp.normal (strBytes "out"),
        PathComp.parentDir, PathComp.normal (strBytes "evil")]) ∧
    resolvePath
        [PathComp.normal (strBytes "tmp"), PathComp.normal (strBytes "out"),
          PathComp.parentDir, PathComp.normal (strBytes "evil")] =
      [PathComp.normal (strBytes "tmp"), PathComp.normal (strBytes "evil")] ∧
    List.isPrefixOf
        [PathComp.normal (strBytes "tmp"), PathComp.normal (strBytes "out")]
        [PathComp.normal (strBytes "tmp"), PathComp.normal (strBytes "evil")] = false ∧
    [PathComp.normal (strBytes "tmp"), PathComp.normal (strBytes "evil")] ≠
      [PathComp.normal (strBytes "tmp"), PathComp.normal (strBytes "out")] := by
  refine ⟨by decide, by decide, by decide, by decide⟩

/-! ## C4 -/

/-- C4: `Cpio::unarchive` calls `Path::canonicalize` on the destination
root BEFORE its `exists()`/`create_dir` fallback, and `canonicalize` fails
for a path that does not exist; so for a nonexistent destination the
function returns a filesystem error instead of creating the directory —
the `create_dir` branch is unreachable.  Here the model filesystem is
empty and the destination `/out` does not exist. -/
theorem c4_unarchive_missing_dest :
    unarchiveResolveDest [] [PathComp.normal (strBytes "out")] =
      .error Err.fileSystemError := by
  decide

end Rcpio
